import Mathlib

/-!
Verification development for the timeline rendering / playback-synchronization
core of the sentry repository.

The numeric model is exact rational arithmetic (`ℚ`) standing in for JS
numbers; machine floating point is not modelled.
-/

/-- Modelled from the spec: `percentComplete = currentTimeMs / durationMs`
(§4.4 step 2).  The helper `divide` from `sentry/utils/number/divide` is not
under src/; it is a division guarded to return `0` on a zero denominator,
which is exactly rational division in Lean. -/
def divide (a b : ℚ) : ℚ := a / b

/-- The `time()` closure of `handlePositionChange` in
`useTimelineMouseTracking` (src/unnamed/part_001, lines 36-53): converts a
pointer pixel offset `left` within an element of width `width` into a
timestamp, given the zoom `scale`, the playhead `currentTime` and the
recording `durationMs`. -/
def pixelToTime (scale currentTime durationMs left width : ℚ) : ℚ :=
  let initialTranslate := 0.5 / scale
  let percentComplete := divide currentTime durationMs
  let starting := percentComplete < initialTranslate
  let ending := percentComplete + initialTranslate > 1
  if starting then
    left / width * durationMs / scale
  else if ending then
    left / width * durationMs / scale + (1 - 1 / scale) * durationMs
  else
    currentTime + (left - width / 2) / width * durationMs / scale

/-- Which of the three branches of the `time()` closure fires, mirroring the
`starting` / `ending` booleans of src/unnamed/part_001 lines 39-40. -/
inductive TimelineBranch
  | starting
  | ending
  | mid
deriving DecidableEq, Repr

/-- The branch selected by `pixelToTime`; note it depends only on `scale`,
`currentTime` and `durationMs`, never on the pointer position. -/
def timelineBranch (scale currentTime durationMs : ℚ) : TimelineBranch :=
  let initialTranslate := 0.5 / scale
  let percentComplete := divide currentTime durationMs
  if percentComplete < initialTranslate then .starting
  else if percentComplete + initialTranslate > 1 then .ending
  else .mid

/-- The pointer geometry handed to `handlePositionChange` by
`useMouseTracking`: offset from the element's left edge and element width. -/
structure MousePosition where
  left : ℚ
  width : ℚ
deriving DecidableEq, Repr

/-- `handlePositionChange` (src/unnamed/part_001, lines 29-58): the
hover/scrub resolver.  `none` for `params` models a null params object,
`none` for `durationMs` models a missing recording, and the returned
`Option ℚ` is the value passed to `setCurrentHoverTime` (`none` =
`undefined`, hover disabled). -/
def handlePositionChange (scale currentTime : ℚ) (durationMs : Option ℚ)
    (params : Option MousePosition) : Option ℚ :=
  match params, durationMs with
  | none, _ => none
  | _, none => none
  | some p, some d =>
    if p.left ≥ 0 then some (pixelToTime scale currentTime d p.left p.width)
    else none

/-- The Scale Mapper algorithm exactly as §4.4 of the spec words it:
`initialTranslate = 0.5/zoom`, `percentComplete = currentTimeMs/durationMs`,
then the three-branch formula. -/
def specPixelToTime (zoom currentTimeMs durationMs pixelX width : ℚ) : ℚ :=
  let initialTranslate := 0.5 / zoom
  let percentComplete := currentTimeMs / durationMs
  if percentComplete < initialTranslate then
    pixelX / width * durationMs / zoom
  else if percentComplete + initialTranslate > 1 then
    pixelX / width * durationMs / zoom + (1 - 1 / zoom) * durationMs
  else
    currentTimeMs + (pixelX - width / 2) / width * durationMs / zoom

/-- `pixelToTime` factors through `timelineBranch`. -/
lemma pixelToTime_eq_branch (scale currentTime durationMs left width : ℚ) :
    pixelToTime scale currentTime durationMs left width =
      match timelineBranch scale currentTime durationMs with
      | .starting => left / width * durationMs / scale
      | .ending => left / width * durationMs / scale + (1 - 1 / scale) * durationMs
      | .mid => currentTime + (left - width / 2) / width * durationMs / scale := by
  unfold pixelToTime timelineBranch
  dsimp only
  split_ifs <;> rfl

/-- C1: for zoom ≥ 1, width > 0, durationMs > 0 and currentTimeMs ∈
[0, durationMs], `pixelToTime` returns exactly the three-branch formula of
the spec (§4.4 steps 1-5). -/
theorem pixelToTime_matches_spec_formula
    (zoom currentTimeMs durationMs pixelX width : ℚ)
    (hz : 1 ≤ zoom) (hw : 0 < width) (hd : 0 < durationMs)
    (hc0 : 0 ≤ currentTimeMs) (hcd : currentTimeMs ≤ durationMs) :
    pixelToTime zoom currentTimeMs durationMs pixelX width =
      specPixelToTime zoom currentTimeMs durationMs pixelX width := rfl

/-- Witness for C1 at zoom 2, width 100, duration 60000, playhead 30000,
pixel 25. -/
theorem pixelToTime_matches_spec_formula_witness :
    pixelToTime 2 30000 60000 25 100 = specPixelToTime 2 30000 60000 25 100 :=
  pixelToTime_matches_spec_formula 2 30000 60000 25 100 (by norm_num)
    (by norm_num) (by norm_num) (by norm_num) (by norm_num)

/-- C2: with zoom ≥ 1, width > 0, durationMs > 0 and the playhead inside
[0, durationMs], the hover time at the leftmost pixel (left = 0) and the
rightmost pixel (left = width) stays inside [0, durationMs]. -/
theorem pixelToTime_edge_clamp (zoom currentTimeMs durationMs width : ℚ)
    (hz : 1 ≤ zoom) (hw : 0 < width) (hd : 0 < durationMs)
    (hc0 : 0 ≤ currentTimeMs) (hcd : currentTimeMs ≤ durationMs) :
    (0 ≤ pixelToTime zoom currentTimeMs durationMs 0 width ∧
      pixelToTime zoom currentTimeMs durationMs 0 width ≤ durationMs) ∧
    (0 ≤ pixelToTime zoom currentTimeMs durationMs width width ∧
      pixelToTime zoom currentTimeMs durationMs width width ≤ durationMs) := by
  have hz0 : (0 : ℚ) < zoom := by linarith
  have hinv : 1 / zoom ≤ 1 := by rw [div_le_one hz0]; exact hz
  have hinv0 : 0 < 1 / zoom := by positivity
  unfold pixelToTime divide
  dsimp only
  split_ifs with h1 h2
  · -- starting branch
    rw [div_self hw.ne']
    refine ⟨⟨by simp, ?_⟩, ⟨by positivity, ?_⟩⟩
    · simp; positivity
    · rw [one_mul]; exact div_le_self hd.le hz
  · -- ending branch
    have hsum : width / width * durationMs / zoom + (1 - 1 / zoom) * durationMs
        = durationMs := by
      rw [div_self hw.ne']; field_simp; ring
    rw [hsum]
    have h0e : (0 : ℚ) / width * durationMs / zoom = 0 := by simp
    rw [h0e, zero_add]
    refine ⟨⟨?_, ?_⟩, hd.le, le_refl _⟩
    · have : 0 ≤ (1 - 1 / zoom) := by linarith
      exact mul_nonneg this hd.le
    · nlinarith [mul_nonneg hinv0.le hd.le]
  · -- mid branch
    push_neg at h1 h2
    rw [div_le_div_iff hz0 hd] at h1
    rw [div_add_div _ _ hd.ne' hz0.ne', div_le_one (by positivity)] at h2
    have e1 : (0 - width / 2) / width = -(1 / 2) := by field_simp; ring
    have e2 : (width - width / 2) / width = 1 / 2 := by field_simp; ring
    rw [e1, e2]
    have g1 : (1 / 2 : ℚ) * durationMs / zoom ≤ currentTimeMs := by
      rw [div_le_iff hz0]; nlinarith
    have g2 : currentTimeMs + (1 / 2 : ℚ) * durationMs / zoom ≤ durationMs := by
      rw [← le_sub_iff_add_le', div_le_iff hz0]; nlinarith
    have gpos : (0 : ℚ) ≤ (1 / 2 : ℚ) * durationMs / zoom := by positivity
    have e3 : currentTimeMs + -(1 / 2) * durationMs / zoom
        = currentTimeMs - 1 / 2 * durationMs / zoom := by ring
    rw [e3]
    exact ⟨⟨by linarith [g1], by linarith [gpos, hcd]⟩,
      ⟨by linarith [gpos, hc0], by linarith [g2]⟩⟩

/-- Witness for C2 at zoom 4, duration 60000, playhead 1000 (starting
branch), width 200. -/
theorem pixelToTime_edge_clamp_witness :
    (0 ≤ pixelToTime 4 1000 60000 0 200 ∧
      pixelToTime 4 1000 60000 0 200 ≤ 60000) ∧
    (0 ≤ pixelToTime 4 1000 60000 200 200 ∧
      pixelToTime 4 1000 60000 200 200 ≤ 60000) :=
  pixelToTime_edge_clamp 4 1000 60000 200 (by norm_num) (by norm_num)
    (by norm_num) (by norm_num) (by norm_num)

/-- C3 counterexample: at zoom = 1 it is NOT the case that only the mid
branch is ever selected: at currentTimeMs = 0 (inside [0, 60000]) the
starting (clamping) branch fires. -/
theorem zoom_one_branch_counterexample :
    ¬ (∀ c : ℚ, 0 ≤ c → c ≤ 60000 →
        timelineBranch 1 c 60000 = TimelineBranch.mid) ∧
    timelineBranch 1 0 60000 = TimelineBranch.starting := by
  have hstart : timelineBranch 1 0 60000 = TimelineBranch.starting := by
    unfold timelineBranch divide
    dsimp only
    rw [if_pos (by norm_num)]
  refine ⟨fun h => ?_, hstart⟩
  have h0 := h 0 le_rfl (by norm_num)
  rw [hstart] at h0
  exact TimelineBranch.noConfusion h0

/-- C3 amended: at zoom = 1 the result always equals the plain linear map
`(pixelX/width)*durationMs` (each branch computes that value), and the mid
branch is the selected branch exactly when the playhead sits at
`durationMs/2`; the spec's particular instance (duration 60000, playhead
30000) does take the mid branch. -/
theorem zoom_one_linear (currentTimeMs durationMs left width : ℚ)
    (hw : 0 < width) (hd : 0 < durationMs)
    (hc0 : 0 ≤ currentTimeMs) (hcd : currentTimeMs ≤ durationMs) :
    pixelToTime 1 currentTimeMs durationMs left width =
      left / width * durationMs ∧
    (timelineBranch 1 currentTimeMs durationMs = TimelineBranch.mid ↔
      currentTimeMs = durationMs / 2) := by
  constructor
  · unfold pixelToTime divide
    dsimp only
    split_ifs with h1 h2
    · rw [div_one]
    · norm_num
    · push_neg at h1 h2
      have hmid : currentTimeMs = durationMs / 2 := by
        norm_num at h1 h2
        have hle : currentTimeMs / durationMs ≤ 1 / 2 := by linarith
        have hge : (1 / 2 : ℚ) ≤ currentTimeMs / durationMs := h1
        have : currentTimeMs / durationMs = 1 / 2 := le_antisymm hle hge
        rw [div_eq_iff hd.ne'] at this
        linarith
      rw [hmid]
      field_simp
      ring
  · have ehalf : durationMs / 2 / durationMs = 1 / 2 := by
      rw [div_right_comm, div_self hd.ne']
    unfold timelineBranch divide
    dsimp only
    split_ifs with h1 h2
    · constructor
      · intro h; exact h.elim
      · intro h
        rw [h] at h1
        norm_num at h1
        rw [ehalf] at h1
        exact absurd h1 (lt_irrefl _)
    · constructor
      · intro h; exact h.elim
      · intro h
        rw [h] at h2
        norm_num at h2
        rw [ehalf] at h2
        norm_num at h2
    · simp only [true_iff]
      push_neg at h1 h2
      norm_num at h1 h2
      have hle : currentTimeMs / durationMs ≤ 1 / 2 := by linarith
      have : currentTimeMs / durationMs = 1 / 2 := le_antisymm hle h1
      rw [div_eq_iff hd.ne'] at this
      linarith

/-- Witness for C3 amended: the spec's Scenario A instance — duration
60000, playhead 30000, zoom 1: pixel 0 maps to time 0 and the mid branch is
selected. -/
theorem zoom_one_linear_witness :
    pixelToTime 1 30000 60000 0 100 = 0 ∧
    timelineBranch 1 30000 60000 = TimelineBranch.mid := by
  have h := zoom_one_linear 30000 60000 0 100 (by norm_num) (by norm_num)
    (by norm_num) (by norm_num)
  exact ⟨by rw [h.1]; norm_num, h.2.mpr (by norm_num)⟩

/-- C10: for fixed scale ≥ 1, width > 0 and durationMs > 0, the hover time
is linear in the pointer offset with slope `durationMs/(width*scale)` in
every branch, hence strictly increasing in `left`. -/
theorem pixelToTime_strict_mono (scale currentTime durationMs width l1 l2 : ℚ)
    (hz : 1 ≤ scale) (hw : 0 < width) (hd : 0 < durationMs) :
    pixelToTime scale currentTime durationMs l2 width
        - pixelToTime scale currentTime durationMs l1 width
      = (l2 - l1) * durationMs / (width * scale) ∧
    (l1 < l2 →
      pixelToTime scale currentTime durationMs l1 width
        < pixelToTime scale currentTime durationMs l2 width) := by
  have hz0 : (0 : ℚ) < scale := by linarith
  have key : pixelToTime scale currentTime durationMs l2 width
      - pixelToTime scale currentTime durationMs l1 width
      = (l2 - l1) * durationMs / (width * scale) := by
    unfold pixelToTime divide
    dsimp only
    split_ifs <;> (field_simp; ring)
  refine ⟨key, fun hl => ?_⟩
  have hslope : 0 < (l2 - l1) * durationMs / (width * scale) :=
    div_pos (mul_pos (sub_pos.mpr hl) hd) (mul_pos hw hz0)
  linarith [key, hslope]

/-- Witness for C10 at scale 2, duration 60000, width 100, pointer offsets
10 < 30. -/
theorem pixelToTime_strict_mono_witness :
    pixelToTime 2 30000 60000 30 100 - pixelToTime 2 30000 60000 10 100
      = (30 - 10) * 60000 / (100 * 2) ∧
    pixelToTime 2 30000 60000 10 100 < pixelToTime 2 30000 60000 30 100 := by
  have h := pixelToTime_strict_mono 2 30000 60000 100 10 30 (by norm_num)
    (by norm_num) (by norm_num)
  exact ⟨h.1, h.2 (by norm_num)⟩

/-- C7 counterexample: a zoom of 1/2 < 1 fed to the scale mapper does not
fail with any InvalidZoom error -- `handlePositionChange` has no zoom
validation and silently returns the number computed by the same branch
formulas (here 60000). -/
theorem invalid_zoom_counterexample :
    (1 / 2 : ℚ) < 1 ∧
    handlePositionChange (1 / 2) 30000 (some 60000) (some ⟨50, 100⟩)
      = some 60000 := by
  constructor
  · norm_num
  · simp only [handlePositionChange]
    rw [if_pos (by norm_num)]
    unfold pixelToTime divide
    dsimp only
    rw [if_pos (by norm_num)]
    norm_num

/-- C7 amended: the scale mapper performs no zoom validation; for every
zoom < 1 (and any in-bounds pointer) it silently returns the value of the
same three-branch formula instead of failing. -/
theorem scale_mapper_no_zoom_validation
    (scale currentTime d l w : ℚ) (hs : scale < 1) (hl : 0 ≤ l) :
    handlePositionChange scale currentTime (some d) (some ⟨l, w⟩)
      = some (pixelToTime scale currentTime d l w) := by
  simp only [handlePositionChange]
  rw [if_pos hl]

/-- Witness for C7 amended at zoom 1/2. -/
theorem scale_mapper_no_zoom_validation_witness :
    handlePositionChange (1 / 2) 30000 (some 60000) (some ⟨50, 100⟩)
      = some (pixelToTime (1 / 2) 30000 60000 50 100) :=
  scale_mapper_no_zoom_validation (1 / 2) 30000 60000 50 100 (by norm_num)
    (by norm_num)

/-- C8: the hover/scrub resolver degrades gracefully: a missing params
object or a missing recording (durationMs undefined) or an out-of-bounds
pointer (left < 0) yields an undefined hover time, never an error, while
every in-bounds pointer with a loaded recording yields a defined hover
time. -/
theorem hover_resolver_graceful (scale currentTime : ℚ) :
    (∀ p, handlePositionChange scale currentTime none p = none) ∧
    (∀ d : ℚ, handlePositionChange scale currentTime (some d) none = none) ∧
    (∀ (d : ℚ) (pos : MousePosition), pos.left < 0 →
      handlePositionChange scale currentTime (some d) (some pos) = none) ∧
    (∀ (d : ℚ) (pos : MousePosition), 0 ≤ pos.left →
      (handlePositionChange scale currentTime (some d) (some pos)).isSome
        = true) := by
  refine ⟨fun p => ?_, fun d => rfl, fun d pos h => ?_, fun d pos h => ?_⟩
  · cases p <;> rfl
  · simp only [handlePositionChange]
    rw [if_neg (not_le.mpr h)]
  · simp only [handlePositionChange]
    rw [if_pos h]
    rfl

/-- Witness for C8: missing recording, pointer left of the element, and an
in-bounds pointer. -/
theorem hover_resolver_graceful_witness :
    handlePositionChange 2 30000 none (some ⟨40, 100⟩) = none ∧
    handlePositionChange 2 30000 (some 60000) (some ⟨-5, 100⟩) = none ∧
    (handlePositionChange 2 30000 (some 60000) (some ⟨40, 100⟩)).isSome
      = true :=
  ⟨(hover_resolver_graceful 2 30000).1 (some ⟨40, 100⟩),
    (hover_resolver_graceful 2 30000).2.2.1 60000 ⟨-5, 100⟩ (by norm_num),
    (hover_resolver_graceful 2 30000).2.2.2 60000 ⟨40, 100⟩ (by norm_num)⟩

/-- Play/pause/ended states of the Playback Clock (spec §4.5). -/
inductive PlayState
  | Paused
  | Playing
  | Ended
deriving DecidableEq, Repr

/-- The Playback Clock state (spec §3 PlaybackState). -/
structure PlaybackState where
  currentTimeMs : ℚ
  playState : PlayState
  speed : ℚ
deriving DecidableEq, Repr

/-- Modelled from the spec: `seek(ms)` (§4.5) -- the replay context's
`setCurrentTime`, whose implementation is not under src/: clamps `ms` to
[0, durationMs], sets `currentTimeMs`, and leaves the play/pause state and
speed untouched. -/
def seek (durationMs ms : ℚ) (s : PlaybackState) : PlaybackState :=
  { s with currentTimeMs := max 0 (min durationMs ms) }

/-- `SECOND = 1000` from replayController.tsx line 19. -/
def SECOND : ℚ := 1000

/-- `rewind(deltaMs)` (spec §4.5): the rewind button of ReplayPlayPauseBar
(replayController.tsx lines 36-43) runs `setCurrentTime(currentTime -
10 * SECOND)`; the delta is generalized as in the spec. -/
def rewind (durationMs deltaMs : ℚ) (s : PlaybackState) : PlaybackState :=
  seek durationMs (s.currentTimeMs - deltaMs) s

/-- C6: rewinding by a (nonnegative) delta from a valid position behaves as
`seek(currentTimeMs - deltaMs)` with the target clamped below at 0, and the
play/pause state is unchanged. -/
theorem rewind_clamps_at_zero (durationMs deltaMs : ℚ) (s : PlaybackState)
    (hdelta : 0 ≤ deltaMs) (h0 : 0 ≤ s.currentTimeMs)
    (hd : s.currentTimeMs ≤ durationMs) :
    rewind durationMs deltaMs s = seek durationMs (s.currentTimeMs - deltaMs) s ∧
    (rewind durationMs deltaMs s).currentTimeMs
      = max 0 (s.currentTimeMs - deltaMs) ∧
    (rewind durationMs deltaMs s).playState = s.playState := by
  refine ⟨rfl, ?_, rfl⟩
  unfold rewind seek
  dsimp only
  rw [min_eq_right (by linarith)]

/-- Witness for C6: the 10-second rewind of the source from playhead 4000
lands clamped at 0 with the play state preserved. -/
theorem rewind_clamps_at_zero_witness :
    (rewind 60000 (10 * SECOND) ⟨4000, PlayState.Playing, 1⟩).currentTimeMs
      = 0 ∧
    (rewind 60000 (10 * SECOND) ⟨4000, PlayState.Playing, 1⟩).playState
      = PlayState.Playing := by
  have h := rewind_clamps_at_zero 60000 (10 * SECOND) ⟨4000, PlayState.Playing, 1⟩
    (by norm_num [SECOND]) (by norm_num) (by norm_num)
  refine ⟨?_, h.2.2⟩
  rw [h.2.1]
  norm_num [SECOND]

/-- A recorded event frame (spec §3): millisecond offset plus kind; the
opaque payload is irrelevant to the claims. -/
structure Frame where
  offsetMs : ℚ
  kind : String
deriving DecidableEq, Repr

/-- Modelled from the spec: Frame Index `findNextFrame` (§4.2) --
`getNextReplayFrame`, whose implementation is not under src/: the
smallest-offset frame with `offsetMs > afterOffsetMs`; over an ascending
frame list this is the first qualifying frame. -/
def findNextFrame (frames : List Frame) (afterOffsetMs : ℚ) : Option Frame :=
  frames.find? fun f => afterOffsetMs < f.offsetMs

/-- The next-breadcrumb button of ReplayPlayPauseBar (replayController.tsx
lines 45-65): look up the next frame after the current time; seek there if
found, otherwise do nothing. -/
def stepToNextFrame (durationMs : ℚ) (frames : List Frame)
    (s : PlaybackState) : PlaybackState :=
  match findNextFrame frames s.currentTimeMs with
  | some next => seek durationMs next.offsetMs s
  | none => s

/-- The playhead positions visited by `n` consecutive applications of a
step operation. -/
def visitTimes (step : PlaybackState → PlaybackState) :
    PlaybackState → Nat → List ℚ
  | _, 0 => []
  | s, n + 1 => (step s).currentTimeMs :: visitTimes step (step s) n

lemma findNextFrame_cons_pos (a : Frame) (rest : List Frame) (t : ℚ)
    (h : t < a.offsetMs) : findNextFrame (a :: rest) t = some a := by
  unfold findNextFrame
  exact List.find?_cons_of_pos _ (by simpa using h)

lemma findNextFrame_cons_neg (a : Frame) (rest : List Frame) (t : ℚ)
    (h : ¬ t < a.offsetMs) :
    findNextFrame (a :: rest) t = findNextFrame rest t := by
  unfold findNextFrame
  exact List.find?_cons_of_neg _ (by simpa using h)

lemma findNextFrame_eq_none (fs : List Frame) (t : ℚ)
    (h : ∀ f ∈ fs, f.offsetMs ≤ t) : findNextFrame fs t = none := by
  unfold findNextFrame
  rw [List.find?_eq_none]
  intro x hx
  simpa using not_lt.mpr (h x hx)

lemma findNextFrame_append_skip (pre fs : List Frame) (t : ℚ)
    (h : ∀ f ∈ pre, f.offsetMs ≤ t) :
    findNextFrame (pre ++ fs) t = findNextFrame fs t := by
  induction pre with
  | nil => rfl
  | cons a pre ih =>
    rw [List.cons_append,
      findNextFrame_cons_neg _ _ _ (not_lt.mpr (h a (List.mem_cons_self a pre))),
      ih fun f hf => h f (List.mem_cons_of_mem a hf)]

/-- On a strictly ascending frame list, `findNextFrame` returns a frame
strictly after the query offset that is minimal among all such frames. -/
lemma findNextFrame_min (fs : List Frame) (t : ℚ)
    (hs : List.Pairwise (fun a b => a.offsetMs < b.offsetMs) fs)
    (f : Frame) (hf : findNextFrame fs t = some f) :
    t < f.offsetMs ∧ f ∈ fs ∧
      ∀ g ∈ fs, t < g.offsetMs → f.offsetMs ≤ g.offsetMs := by
  induction fs with
  | nil => cases hf
  | cons a rest ih =>
    rw [List.pairwise_cons] at hs
    by_cases ha : t < a.offsetMs
    · rw [findNextFrame_cons_pos a rest t ha] at hf
      injection hf with hfa
      subst hfa
      refine ⟨ha, List.mem_cons_self _ _, ?_⟩
      intro g hg _
      rcases List.mem_cons.mp hg with h | h
      · rw [h]
      · exact (hs.1 g h).le
    · rw [findNextFrame_cons_neg a rest t ha] at hf
      obtain ⟨h1, h2, h3⟩ := ih hs.2 hf
      refine ⟨h1, List.mem_cons_of_mem a h2, ?_⟩
      intro g hg htg
      rcases List.mem_cons.mp hg with h | h
      · subst h
        exact absurd htg ha
      · exact h3 g h htg

/-- Stepping through an ascending block of upcoming frames visits each of
them once in order, after which one further step is a no-op.  `pre` is the
already-passed portion of the recording. -/
lemma stepToNextFrame_run (durationMs : ℚ) :
    ∀ (fs pre : List Frame) (s : PlaybackState),
      (∀ f ∈ pre, f.offsetMs ≤ s.currentTimeMs) →
      List.Pairwise (fun a b => a.offsetMs < b.offsetMs) fs →
      (∀ f ∈ fs, s.currentTimeMs < f.offsetMs) →
      (∀ f ∈ fs, f.offsetMs ≤ durationMs) →
      0 ≤ s.currentTimeMs →
      visitTimes (stepToNextFrame durationMs (pre ++ fs)) s fs.length
          = fs.map (fun f => f.offsetMs) ∧
      (stepToNextFrame durationMs (pre ++ fs))^[fs.length + 1] s
          = (stepToNextFrame durationMs (pre ++ fs))^[fs.length] s := by
  intro fs
  induction fs with
  | nil =>
    intro pre s hpre _ _ _ _
    have hstep : stepToNextFrame durationMs (pre ++ []) s = s := by
      unfold stepToNextFrame
      rw [List.append_nil, findNextFrame_eq_none pre _ hpre]
    constructor
    · rfl
    · simp only [List.length_nil, zero_add, Function.iterate_one,
        Function.iterate_zero, id_eq]
      exact hstep
  | cons a rest ih =>
    intro pre s hpre hsort hgt hdle h0
    rw [List.pairwise_cons] at hsort
    have hamem := hgt a (List.mem_cons_self a rest)
    have hfind : findNextFrame (pre ++ a :: rest) s.currentTimeMs = some a := by
      rw [findNextFrame_append_skip pre _ _ hpre]
      exact findNextFrame_cons_pos a rest _ hamem
    have hstep : stepToNextFrame durationMs (pre ++ a :: rest) s
        = seek durationMs a.offsetMs s := by
      unfold stepToNextFrame
      rw [hfind]
    have hcur : (seek durationMs a.offsetMs s).currentTimeMs = a.offsetMs := by
      unfold seek
      dsimp only
      rw [min_eq_right (hdle a (List.mem_cons_self a rest)),
        max_eq_right (le_of_lt (lt_of_le_of_lt h0 hamem))]
    have hlist : pre ++ a :: rest = (pre ++ [a]) ++ rest := by simp
    have hpre' : ∀ f ∈ pre ++ [a],
        f.offsetMs ≤ (seek durationMs a.offsetMs s).currentTimeMs := by
      rw [hcur]
      intro f hf
      rcases List.mem_append.mp hf with h | h
      · exact le_of_lt (lt_of_le_of_lt (hpre f h) hamem)
      · rw [List.mem_singleton.mp h]
    have hgt' : ∀ f ∈ rest,
        (seek durationMs a.offsetMs s).currentTimeMs < f.offsetMs := by
      rw [hcur]
      exact hsort.1
    have h0' : 0 ≤ (seek durationMs a.offsetMs s).currentTimeMs := by
      rw [hcur]
      exact le_of_lt (lt_of_le_of_lt h0 hamem)
    obtain ⟨ih1, ih2⟩ := ih (pre ++ [a]) (seek durationMs a.offsetMs s) hpre'
      hsort.2 hgt' (fun f hf => hdle f (List.mem_cons_of_mem a hf)) h0'
    rw [← hlist] at ih1 ih2
    constructor
    · simp only [List.length_cons, visitTimes, List.map_cons]
      rw [hstep, hcur, ih1]
    · simp only [List.length_cons, Function.iterate_succ_apply]
      rw [hstep]
      simpa only [Function.iterate_succ_apply] using ih2

/-- C5: `stepToNextFrame` delegates to `findNextFrame` (which on the sorted
frame list returns the minimal frame strictly after the query offset),
seeking there when found and doing nothing -- in particular never entering
`Ended` -- when not; and on a 10-frame recording with strictly ascending
positive offsets, repeated calls from time 0 visit all 10 frames in
ascending order exactly once, the 11th call being a no-op. -/
theorem stepToNextFrame_spec (durationMs : ℚ) (fs : List Frame)
    (s : PlaybackState)
    (hsort : List.Pairwise (fun a b => a.offsetMs < b.offsetMs) fs)
    (hpos : ∀ f ∈ fs, 0 < f.offsetMs)
    (hle : ∀ f ∈ fs, f.offsetMs ≤ durationMs)
    (hlen : fs.length = 10)
    (hstart : s.currentTimeMs = 0) :
    (∀ (t : ℚ) (f : Frame), findNextFrame fs t = some f →
      t < f.offsetMs ∧ f ∈ fs ∧
        ∀ g ∈ fs, t < g.offsetMs → f.offsetMs ≤ g.offsetMs) ∧
    (∀ (st : PlaybackState) (f : Frame),
      findNextFrame fs st.currentTimeMs = some f →
      stepToNextFrame durationMs fs st = seek durationMs f.offsetMs st) ∧
    (∀ st : PlaybackState, findNextFrame fs st.currentTimeMs = none →
      stepToNextFrame durationMs fs st = st) ∧
    visitTimes (stepToNextFrame durationMs fs) s 10
        = fs.map (fun f => f.offsetMs) ∧
    (stepToNextFrame durationMs fs)^[11] s
      = (stepToNextFrame durationMs fs)^[10] s := by
  have hrun := stepToNextFrame_run durationMs fs [] s (by simp) hsort
    (fun f hf => by rw [hstart]; exact hpos f hf) hle (by simp [hstart])
  rw [List.nil_append, hlen] at hrun
  refine ⟨fun t f hf => findNextFrame_min fs t hsort f hf,
    fun st f hf => ?_, fun st hnone => ?_, hrun.1, by simpa using hrun.2⟩
  · unfold stepToNextFrame
    rw [hf]
  · unfold stepToNextFrame
    rw [hnone]

/-- A concrete 10-frame recording used as the C5 witness. -/
def demoFrames : List Frame :=
  [⟨100, "breadcrumb"⟩, ⟨200, "breadcrumb"⟩, ⟨300, "breadcrumb"⟩,
   ⟨400, "breadcrumb"⟩, ⟨500, "breadcrumb"⟩, ⟨600, "breadcrumb"⟩,
   ⟨700, "breadcrumb"⟩, ⟨800, "breadcrumb"⟩, ⟨900, "breadcrumb"⟩,
   ⟨1000, "breadcrumb"⟩]

/-- Witness for C5 on the concrete 10-frame recording. -/
theorem stepToNextFrame_spec_witness :
    visitTimes (stepToNextFrame 2000 demoFrames) ⟨0, PlayState.Paused, 1⟩ 10
        = [100, 200, 300, 400, 500, 600, 700, 800, 900, 1000] ∧
    (stepToNextFrame 2000 demoFrames)^[11] ⟨0, PlayState.Paused, 1⟩
      = (stepToNextFrame 2000 demoFrames)^[10] ⟨0, PlayState.Paused, 1⟩ := by
  have h := stepToNextFrame_spec 2000 demoFrames ⟨0, PlayState.Paused, 1⟩
    (by norm_num [demoFrames]) (by norm_num [demoFrames])
    (by norm_num [demoFrames]) (by norm_num [demoFrames]) rfl
  exact ⟨h.2.2.2.1.trans (by norm_num [demoFrames]), h.2.2.2.2⟩

/-- Modelled from the spec: `timeToPixel` (§4.4) -- the scrubber-handle
placement, whose implementation is not under src/: the algebraic inverse of
the active branch of `pixelToTime`, using the same branch-selection logic
(which depends only on scale, playhead and duration, never on the input). -/
def timeToPixel (scale currentTime durationMs timeMs width : ℚ) : ℚ :=
  let initialTranslate := 0.5 / scale
  let percentComplete := divide currentTime durationMs
  let starting := percentComplete < initialTranslate
  let ending := percentComplete + initialTranslate > 1
  if starting then
    timeMs * scale * width / durationMs
  else if ending then
    (timeMs - (1 - 1 / scale) * durationMs) * scale * width / durationMs
  else
    width / 2 + (timeMs - currentTime) * scale * width / durationMs

/-- C4: `timeToPixel` inverts the branch of `pixelToTime` active for the
given zoom, playhead and duration: the round trip is exact (error 0, well
within one pixel's time resolution). -/
theorem pixelToTime_timeToPixel_roundtrip
    (scale currentTime durationMs timeMs width : ℚ)
    (hz : 1 ≤ scale) (hw : 0 < width) (hd : 0 < durationMs)
    (ht0 : 0 ≤ timeMs) (htd : timeMs ≤ durationMs) :
    pixelToTime scale currentTime durationMs
      (timeToPixel scale currentTime durationMs timeMs width) width
      = timeMs := by
  have hz0 : (0 : ℚ) < scale := by linarith
  have hwne := hw.ne'
  have hdne := hd.ne'
  have hzne := hz0.ne'
  unfold pixelToTime timeToPixel divide
  dsimp only
  split_ifs with h1 h2
  · field_simp
    ring
  · field_simp
    ring
  · field_simp
    ring

/-- Witness for C4 at zoom 2, playhead 30000, duration 60000, time 45000,
width 100. -/
theorem pixelToTime_timeToPixel_roundtrip_witness :
    pixelToTime 2 30000 60000 (timeToPixel 2 30000 60000 45000 100) 100
      = 45000 :=
  pixelToTime_timeToPixel_roundtrip 2 30000 60000 45000 100 (by norm_num)
    (by norm_num) (by norm_num) (by norm_num) (by norm_num)

/-- Modelled from the spec: the fixed ladder of "nice" bucket sizes
(seconds/minutes/hours multiples, §4.1): 1s, 5s, 10s, 30s, 1m, 5m, 10m,
15m, 30m, 1h, 2h, 4h, 8h, 12h, 24h in milliseconds. -/
def niceBucketLadder : List ℚ :=
  [1000, 5000, 10000, 30000, 60000, 300000, 600000, 900000, 1800000,
   3600000, 7200000, 14400000, 28800000, 43200000, 86400000]

/-- The TimeWindowConfig descriptor (spec §3). -/
structure TimeWindowConfig where
  start : ℚ
  endMs : ℚ
  elapsedMinutes : ℚ
  bucketSizeMs : ℚ
  bucketCount : ℤ
  pixelsPerMs : ℚ
deriving DecidableEq, Repr

/-- Failure mode of the TimeWindowConfig Builder (spec §7). -/
inductive BuilderError
  | InvalidGeometry
deriving DecidableEq, Repr

/-- Modelled from the spec: TimeWindowConfig Builder `build` (§4.1) --
`getConfigFromTimeRange`, whose implementation is not under src/: rejects a
non-positive pixel width with `InvalidGeometry`, otherwise picks the
smallest ladder value giving at least 8 pixels per bucket (the legibility
band of one bucket per 8-20 pixels), falling back to the largest rung. -/
def getConfigFromTimeRange (start endMs pixelWidth : ℚ) :
    Except BuilderError TimeWindowConfig :=
  if pixelWidth ≤ 0 then Except.error BuilderError.InvalidGeometry
  else
    let rangeMs := endMs - start
    let bucketSizeMs :=
      (niceBucketLadder.find?
        fun b => (⌈rangeMs / b⌉ : ℚ) * 8 ≤ pixelWidth).getD 86400000
    Except.ok
      { start := start
        endMs := endMs
        elapsedMinutes := rangeMs / 60000
        bucketSizeMs := bucketSizeMs
        bucketCount := ⌈rangeMs / bucketSizeMs⌉
        pixelsPerMs := pixelWidth / rangeMs }

/-- C9: for the 24-hour range [0, 86400000] at pixelWidth 1200 the builder
picks a bucket size from the nice ladder whose bucket count lies in
[60, 150]; and a non-positive pixel width fails with InvalidGeometry. -/
theorem getConfigFromTimeRange_density :
    (∃ cfg, getConfigFromTimeRange 0 86400000 1200 = Except.ok cfg ∧
      cfg.bucketSizeMs ∈ niceBucketLadder ∧
      60 ≤ cfg.bucketCount ∧ cfg.bucketCount ≤ 150) ∧
    ∀ pw : ℚ, pw ≤ 0 →
      getConfigFromTimeRange 0 86400000 pw
        = Except.error BuilderError.InvalidGeometry := by
  constructor
  · unfold getConfigFromTimeRange
    rw [if_neg (by norm_num : ¬ (1200 : ℚ) ≤ 0)]
    dsimp only
    have hfind : (niceBucketLadder.find?
        fun b => (⌈((86400000 : ℚ) - 0) / b⌉ : ℚ) * 8 ≤ 1200)
        = some 600000 := by
      unfold niceBucketLadder
      rw [List.find?_cons_of_neg _ (by norm_num),
        List.find?_cons_of_neg _ (by norm_num),
        List.find?_cons_of_neg _ (by norm_num),
        List.find?_cons_of_neg _ (by norm_num),
        List.find?_cons_of_neg _ (by norm_num),
        List.find?_cons_of_neg _ (by norm_num)]
      exact List.find?_cons_of_pos _ (by norm_num)
    rw [hfind]
    simp only [Option.getD_some]
    refine ⟨_, rfl, ?_, ?_, ?_⟩
    · unfold niceBucketLadder
      simp
    · norm_num
    · norm_num
  · intro pw hpw
    unfold getConfigFromTimeRange
    rw [if_pos hpw]

/-- Witness for C9's InvalidGeometry clause at pixelWidth -5. -/
theorem getConfigFromTimeRange_density_witness :
    getConfigFromTimeRange 0 86400000 (-5)
      = Except.error BuilderError.InvalidGeometry :=
  getConfigFromTimeRange_density.2 (-5) (by norm_num)
